import Mathlib

/-!
Verification of the hierarchical document registry of the
RealEstateDevelopmentCode repository
(`scripts/common/hierarchical_document_registry.py`,
`scripts/common/utils.py`, `scripts/common/config.py`).

Strings are modelled as lists of characters (`Str`).  Python's `re`
digit class `\d` is modelled as the ASCII digit test `Char.isDigit`
(the repository only processes ASCII municipal-code numbers).  Python's
`$` anchor matches either at the end of the string or just before a
final newline character; this is modelled faithfully by `reMatchDollar`.
Python floats are modelled as rationals (`ℚ`).
-/

abbrev Str := List Char

def strL (s : String) : Str := s.data

/-- Python substring containment test `needle in hay` needs a
"starts with" helper; `leadsWith n h` is true when `n` is an initial
segment of `h`. -/
def leadsWith : Str → Str → Bool
  | [], _ => true
  | _ :: _, [] => false
  | c :: cs, h :: hs => c == h && leadsWith cs hs

/-- Python `needle in hay` (substring containment). -/
def strContains (hay needle : Str) : Bool :=
  match hay with
  | [] => needle.isEmpty
  | _ :: rest => leadsWith needle hay || strContains rest needle

/-- Python `s.split(sep)` for a single-character separator: splits on
every occurrence of `sep`, keeping empty segments, and always returns a
non-empty list of segments. -/
def pySplit (sep : Char) : Str → List Str
  | [] => [[]]
  | c :: rest =>
    if c == sep then [] :: pySplit sep rest
    else
      match pySplit sep rest with
      | h :: t => (c :: h) :: t
      | [] => [[c]]

/-- Core matcher for the anchored patterns `^\d+\.\d{n}$` of
`config.PATTERNS` (with `n = 2` for `document_level` and `n = 4` for
`subsection`), ignoring the `$`-before-final-newline quirk which is
handled by `reMatchDollar`.  Since the token after `\d+` is a literal
dot, which can never match a digit, `\d+` necessarily consumes the
maximal digit run at the start of the string, so the remainder must be
exactly a dot followed by `n` digits. -/
def coreShape (fracLen : Nat) (s : Str) : Bool :=
  !(s.takeWhile Char.isDigit).isEmpty &&
  ((s.dropWhile Char.isDigit).headD 'x' == '.') &&
  (((s.dropWhile Char.isDigit).drop 1).length == fracLen) &&
  ((s.dropWhile Char.isDigit).drop 1).all Char.isDigit

/-- Python `re.match` with a pattern ending in `$`: the match succeeds
on the whole string, or on the string minus a final newline (`$` also
matches just before a newline that ends the string). -/
def reMatchDollar (core : Str → Bool) (s : Str) : Bool :=
  core s ||
    (match s.getLast? with
     | some c => c == '\n' && core s.dropLast
     | none => false)

/-- `utils.is_document_level`: `bool(re.match(r'^\d+\.\d{2}$', number))`. -/
def is_document_level (number : Str) : Bool :=
  reMatchDollar (coreShape 2) number

/-- `utils.is_subsection`: `bool(re.match(r'^\d+\.\d{4}$', number))`. -/
def is_subsection (number : Str) : Bool :=
  reMatchDollar (coreShape 4) number

/-- `utils.get_parent_document`: for a subsection number, split on the
dot and rebuild `{integer_part}.{first_two_fraction_digits}`; `None`
otherwise. -/
def get_parent_document (subsection_number : Str) : Option Str :=
  if is_subsection subsection_number then
    let parts := pySplit '.' subsection_number
    if parts.length == 2 && (parts.getD 1 []).length == 4 then
      some ((parts.getD 0 []) ++ '.' :: (parts.getD 1 []).take 2)
    else none
  else none

/-- The normalisation step shared by `utils.extract_number_from_filename`
and `HierarchicalDocumentRegistry._parse_toc_from_page_text`: a number
of shape `XX.YYYY...` with more than two fraction digits is truncated
to `XX.YY`. -/
def normalize_number (number : Str) : Str :=
  if number.contains '.' then
    let parts := pySplit '.' number
    if parts.length == 2 && 2 < (parts.getD 1 []).length then
      (parts.getD 0 []) ++ '.' :: ((parts.getD 1 []).take 2)
    else number
  else number

/-- One step of `re.search(r'(\d+\.\d+)', s)`: scan left to right for
the first digit run that is immediately followed by a dot and at least
one digit; the match is that run, the dot, and the maximal digit run
after the dot.  `fuel` bounds the recursion; every recursive call drops
at least one character, so `fuel = s.length` is always sufficient. -/
def reSearchGo : Nat → Str → Option Str
  | 0, _ => none
  | _ + 1, [] => none
  | fuel + 1, c :: rest =>
    if c.isDigit then
      match (c :: rest).dropWhile Char.isDigit with
      | '.' :: rest2 =>
        if !(rest2.takeWhile Char.isDigit).isEmpty then
          some (((c :: rest).takeWhile Char.isDigit) ++
                '.' :: rest2.takeWhile Char.isDigit)
        else reSearchGo fuel rest2
      | other => reSearchGo fuel other
    else reSearchGo fuel rest

/-- `re.search(r'(\d+\.\d+)', s)`, returning the matched group. -/
def reSearchNumber (s : Str) : Option Str :=
  reSearchGo s.length s

/-- `utils.extract_number_from_filename`: first `\d+\.\d+` substring of
the filename, normalised to `XX.YY` when the fraction has more than two
digits. -/
def extract_number_from_filename (filename : Str) : Option Str :=
  (reSearchNumber filename).map normalize_number

/-- `utils.calculate_percentage` (float arithmetic modelled over ℚ). -/
def calculate_percentage (numerator denominator : Int) : ℚ :=
  if denominator = 0 then 0
  else ((numerator : ℚ) / (denominator : ℚ)) * 100

/-! ## Data model (`hierarchical_document_registry.py`) -/

/-- Dataclass `TOCEntry`. -/
structure TOCEntry where
  number : Str
  title : Str
  page : Option Str := none
  level : Nat := 0
deriving DecidableEq, Repr

/-- Dataclass `DocumentFile`. -/
structure DocumentFile where
  filename : Str
  filepath : Str
  extracted_number : Option Str := none
  content_preview : Option Str := none
deriving DecidableEq, Repr

/-- Property `DocumentFile.document_number`.  Python's
`if self.extracted_number:` is a truthiness test, so both `None` and the
empty string fall through to filename extraction. -/
def DocumentFile.document_number (f : DocumentFile) : Option Str :=
  match f.extracted_number with
  | some n => if !n.isEmpty then some n else extract_number_from_filename f.filename
  | none => extract_number_from_filename f.filename

/-- Dataclass `DocumentHierarchy`. -/
structure DocumentHierarchy where
  document_number : Str
  document_title : Str
  file_info : Option DocumentFile := none
  subsections : List TOCEntry := []
deriving DecidableEq, Repr

/-- Property `DocumentHierarchy.has_file`. -/
def DocumentHierarchy.has_file (h : DocumentHierarchy) : Bool :=
  h.file_info.isSome

/-- Property `DocumentHierarchy.subsection_count`. -/
def DocumentHierarchy.subsection_count (h : DocumentHierarchy) : Nat :=
  h.subsections.length

/-- Dataclass `AlignmentMetrics` (Python ints modelled as ℤ, since two
of the fields are computed by subtraction). -/
structure AlignmentMetrics where
  total_documents : Int
  documents_with_files : Int
  documents_without_files : Int
  total_subsections : Int
  orphaned_files : Int
deriving DecidableEq, Repr

/-- Property `AlignmentMetrics.alignment_percentage`. -/
def AlignmentMetrics.alignment_percentage (m : AlignmentMetrics) : ℚ :=
  calculate_percentage m.documents_with_files m.total_documents

/-! ## The `document_hierarchy` dict

Python's `dict` (insertion-ordered, assignment replaces in place) is
modelled as an association list. -/

abbrev Dict := List (Str × DocumentHierarchy)

def keysOf (d : Dict) : List Str := d.map Prod.fst

/-- Python `k in d`. -/
def containsKey (k : Str) (d : Dict) : Bool :=
  d.any (fun p => p.1 == k)

/-- Python `d[k]` lookup (first entry with the key). -/
def dictFind (k : Str) : Dict → Option DocumentHierarchy
  | [] => none
  | p :: rest => if p.1 == k then some p.2 else dictFind k rest

/-- Python `d[k] = v`: replace the value in place when the key exists,
append a new entry otherwise. -/
def dictInsert (k : Str) (v : DocumentHierarchy) (d : Dict) : Dict :=
  if containsKey k d then d.map (fun p => if p.1 == k then (p.1, v) else p)
  else d ++ [(k, v)]

/-- In-place mutation `d[k].field = ...` of the entry at key `k`. -/
def dictUpdate (k : Str) (f : DocumentHierarchy → DocumentHierarchy) (d : Dict) : Dict :=
  d.map (fun p => if p.1 == k then (p.1, f p.2) else p)

/-! ## `HierarchicalDocumentRegistry.build_hierarchy`

The registry's mutable fields `toc_entries`, `document_files` and
`document_hierarchy` are passed explicitly. -/

/-- First loop of `build_hierarchy`: create a fresh
`DocumentHierarchy` for each document-level TOC entry. -/
def buildDocMap (document_entries : List TOCEntry) : Dict :=
  document_entries.foldl
    (fun d e => dictInsert e.number ⟨e.number, e.title, none, []⟩ d) []

/-- Second loop of `build_hierarchy`: append a subsection to its parent
document when the parent number is truthy and present in the map. -/
def addSubsectionStep (d : Dict) (s : TOCEntry) : Dict :=
  match get_parent_document s.number with
  | some parent_num =>
      if !parent_num.isEmpty && containsKey parent_num d then
        dictUpdate parent_num
          (fun h => { h with subsections := h.subsections ++ [s] }) d
      else d
  | none => d

/-- Third loop of `build_hierarchy`: attach a file to its document when
the extracted number is truthy and present in the map (later files
overwrite earlier ones). -/
def attachFileStep (d : Dict) (f : DocumentFile) : Dict :=
  match f.document_number with
  | some doc_num =>
      if !doc_num.isEmpty && containsKey doc_num d then
        dictUpdate doc_num (fun h => { h with file_info := some f }) d
      else d
  | none => d

/-- `HierarchicalDocumentRegistry.build_hierarchy`. -/
def build_hierarchy (toc_entries : List TOCEntry)
    (document_files : List DocumentFile) : Dict :=
  let document_entries := toc_entries.filter (fun e => is_document_level e.number)
  let subsection_entries := toc_entries.filter (fun e => is_subsection e.number)
  let d1 := buildDocMap document_entries
  let d2 := subsection_entries.foldl addSubsectionStep d1
  document_files.foldl attachFileStep d2

/-- The `matched_files` set of `calculate_alignment_metrics`
(a Python `set`, modelled as a `Finset`). -/
def matchedFiles (d : Dict) : Finset Str :=
  d.foldl
    (fun s p =>
      match p.2.file_info with
      | some fi => insert fi.filename s
      | none => s) ∅

/-- `HierarchicalDocumentRegistry.calculate_alignment_metrics`. -/
def calculate_alignment_metrics (document_files : List DocumentFile)
    (d : Dict) : AlignmentMetrics :=
  let total_documents : Int := d.length
  let documents_with_files : Int := d.countP (fun p => p.2.has_file)
  let documents_without_files := total_documents - documents_with_files
  let total_subsections : Int := (d.map (fun p => p.2.subsection_count)).sum
  let orphaned_files : Int := (document_files.length : Int) - (matchedFiles d).card
  { total_documents := total_documents
    documents_with_files := documents_with_files
    documents_without_files := documents_without_files
    total_subsections := total_subsections
    orphaned_files := orphaned_files }

/-! ## `HierarchicalDocumentRegistry.validate_subsection_content`

File I/O and JSON parsing are abstracted by a function
`fs : Str → Except Str Str` mapping a filepath either to the
stringified parsed content `str(json.load(f))` or to the message of the
exception raised while opening/parsing. -/

/-- The result dictionary of `validate_subsection_content`: either an
`{'error': msg}` marker or the full validation record. -/
inductive ValidationOutcome where
  | error (msg : Str)
  | ok (document_number : Str) (file_path : Str)
      (expected_subsections found_subsections missing_subsections : Nat)
      (found_list missing_list : List Str)
      (validation_percentage : ℚ)
deriving DecidableEq, Repr

def ValidationOutcome.isError : ValidationOutcome → Bool
  | .error _ => true
  | .ok _ _ _ _ _ _ _ _ => false

/-- `HierarchicalDocumentRegistry.validate_subsection_content`. -/
def validate_subsection_content (d : Dict) (fs : Str → Except Str Str)
    (document_number : Str) : ValidationOutcome :=
  match dictFind document_number d with
  | none => .error (strL "Document " ++ document_number ++ strL " not found in hierarchy")
  | some hierarchy =>
    match hierarchy.file_info with
    | none => .error (strL "No file found for document " ++ document_number)
    | some fi =>
      match fs fi.filepath with
      | .error e => .error (strL "Failed to validate content: " ++ e)
      | .ok text_content =>
        let found_subsections :=
          hierarchy.subsections.filter (fun s => strContains text_content s.number)
        let missing_subsections :=
          hierarchy.subsections.filter (fun s => !strContains text_content s.number)
        .ok document_number fi.filepath
          hierarchy.subsections.length
          found_subsections.length
          missing_subsections.length
          (found_subsections.map (fun s => s.number))
          (missing_subsections.map (fun s => s.number))
          (if hierarchy.subsections.isEmpty then 100
           else ((found_subsections.length : ℚ) / (hierarchy.subsections.length : ℚ)) * 100)

/-! ## `HierarchicalDocumentRegistry.load_toc_from_file`

The JSON value parsed by `load_json_file` is passed in directly.  The
regex-driven text extraction `utils.extract_toc_entries_from_text` is a
parameter (`extractEntries`): the claims about `load_toc_from_file`
concern its shape dispatch and state reset, which are independent of the
extraction regexes, so the theorems below hold for every extraction
function. -/

inductive JSON where
  | null
  | bool (b : Bool)
  | num (q : ℚ)
  | str (s : Str)
  | arr (items : List JSON)
  | obj (kvs : List (Str × JSON))

def jsonObjHasKey (kvs : List (Str × JSON)) (k : Str) : Bool :=
  kvs.any (fun p => p.1 == k)

def jsonObjGet (kvs : List (Str × JSON)) (k : Str) : Option JSON :=
  match kvs with
  | [] => none
  | p :: rest => if p.1 == k then some p.2 else jsonObjGet rest k

/-- Python `item.get(key, default)` restricted to string values; a JSON
value of another type at the key is outside the modelled fragment and
yields the default. -/
def jsonGetStrD (kvs : List (Str × JSON)) (k : Str) (dflt : Str) : Str :=
  match jsonObjGet kvs k with
  | some (.str s) => s
  | _ => dflt

/-- Python `item.get('page')` restricted to string values. -/
def jsonGetStrOpt (kvs : List (Str × JSON)) (k : Str) : Option Str :=
  match jsonObjGet kvs k with
  | some (.str s) => some s
  | _ => none

/-- Python `item.get('level', 0)` restricted to natural values. -/
def jsonGetNatD (kvs : List (Str × JSON)) (k : Str) (dflt : Nat) : Nat :=
  match jsonObjGet kvs k with
  | some (.num q) => if 0 ≤ q ∧ q.den = 1 then q.num.toNat else dflt
  | _ => dflt

/-- Build a `TOCEntry` from one item of a TOC item list.  Python calls
`item.get(...)`, which raises `AttributeError` when the item is not a
dict; that failure is signalled by `none`. -/
def tocEntryOfItem (item : JSON) : Option TOCEntry :=
  match item with
  | .obj kvs =>
      some ⟨jsonGetStrD kvs (strL "number") [],
            jsonGetStrD kvs (strL "title") [],
            jsonGetStrOpt kvs (strL "page"),
            jsonGetNatD kvs (strL "level") 0⟩
  | _ => none

/-- The item loop of `load_toc_from_file`: entries are appended one by
one; a non-dict item raises, keeping the entries appended so far. -/
def parseItems : List JSON → List TOCEntry → List TOCEntry × Option Str
  | [], acc => (acc, none)
  | item :: rest, acc =>
    match tocEntryOfItem item with
    | some e => parseItems rest (acc ++ [e])
    | none => (acc, some (strL "AttributeError"))

/-- The `has_pages_with_text` scan of `load_toc_from_file` (lines
143-164): when the value at `'pages'` is a list, only that list is
scanned for dicts with a `'text'` key; otherwise every value of the
object is scanned (dicts directly, lists element-wise). -/
def hasPagesWithText (kvs : List (Str × JSON)) : Bool :=
  match jsonObjGet kvs (strL "pages") with
  | some (.arr pages) =>
      pages.any (fun p =>
        match p with
        | .obj k2 => jsonObjHasKey k2 (strL "text")
        | _ => false)
  | _ =>
      kvs.any (fun p =>
        match p.2 with
        | .obj k2 => jsonObjHasKey k2 (strL "text")
        | .arr xs =>
            xs.any (fun x =>
              match x with
              | .obj k2 => jsonObjHasKey k2 (strL "text")
              | _ => false)
        | _ => false)

/-- `utils.parse_toc_text_content`: concatenate the `'text'` fields (with
trailing newlines) of dict values and of dict elements of list values.
Non-string `'text'` values are outside the modelled fragment and
contribute nothing. -/
def parse_toc_text_content (kvs : List (Str × JSON)) : Str :=
  kvs.foldl
    (fun acc p =>
      match p.2 with
      | .obj k2 =>
          (match jsonObjGet k2 (strL "text") with
           | some (.str t) => acc ++ t ++ ['\n']
           | _ => acc)
      | .arr xs =>
          xs.foldl
            (fun acc2 x =>
              match x with
              | .obj k2 =>
                  (match jsonObjGet k2 (strL "text") with
                   | some (.str t) => acc2 ++ t ++ ['\n']
                   | _ => acc2)
              | _ => acc2) acc
      | _ => acc) []

/-- A raw entry produced by `utils.extract_toc_entries_from_text`:
`type` is `'section_header'` or `'subsection'`. -/
inductive RawKind where
  | section_header
  | subsection
deriving DecidableEq, Repr

structure RawEntry where
  number : Str
  title : Str
  kind : RawKind
deriving DecidableEq, Repr

/-- `HierarchicalDocumentRegistry._parse_toc_from_page_text`, with the
regex extraction abstracted as `extractEntries`. -/
def parse_toc_from_page_text (extractEntries : Str → List RawEntry)
    (kvs : List (Str × JSON)) : List TOCEntry :=
  let all_text := parse_toc_text_content kvs
  (extractEntries all_text).map
    (fun e =>
      match e.kind with
      | .section_header => ⟨normalize_number e.number, e.title, none, 0⟩
      | .subsection => ⟨e.number, e.title, none, 1⟩)

/-- The mutable state of a `HierarchicalDocumentRegistry`. -/
structure Registry where
  toc_entries : List TOCEntry
  document_files : List DocumentFile
  document_hierarchy : Dict
deriving DecidableEq

/-- `HierarchicalDocumentRegistry.load_toc_from_file` as a state
transformer: returns the updated registry together with `some msg` when
the Python code raises.  `self.toc_entries = []` runs before the shape
dispatch.  A `'toc'` key whose value is not a list makes the Python
`for` loop raise before appending anything. -/
def load_toc_from_file (extractEntries : Str → List RawEntry)
    (reg : Registry) (toc_data : JSON) : Registry × Option Str :=
  let base := { reg with toc_entries := [] }
  match toc_data with
  | .obj kvs =>
    if jsonObjHasKey kvs (strL "toc") then
      match jsonObjGet kvs (strL "toc") with
      | some (.arr items) =>
          let r := parseItems items []
          ({ base with toc_entries := r.1 }, r.2)
      | _ => (base, some (strL "TypeError"))
    else if hasPagesWithText kvs then
      ({ base with toc_entries := parse_toc_from_page_text extractEntries kvs }, none)
    else (base, some (strL "Unsupported TOC data structure"))
  | .arr items =>
      let r := parseItems items []
      ({ base with toc_entries := r.1 }, r.2)
  | _ => (base, some (strL "Unsupported TOC data structure"))

/-- The complement of the three recognised TOC shapes of the claim: not
an object with a `'toc'` key, not a bare list, and not an object with
text-bearing page values. -/
def tocShapeUnrecognized (toc_data : JSON) : Bool :=
  match toc_data with
  | .obj kvs => !jsonObjHasKey kvs (strL "toc") && !hasPagesWithText kvs
  | .arr _ => false
  | _ => true

/-! ## Spec-side definitions and concrete fixtures used by the
theorems and witnesses below -/

/-- The spec's description of the parent number, as a definition of its
own for comparison with `get_parent_document`: the integer part, a dot,
and the first two digits of the fractional part. -/
def spec_parent_document (s : Str) : Str :=
  s.takeWhile Char.isDigit ++ '.' :: ((s.dropWhile Char.isDigit).drop 1).take 2

def tocStreets : TOCEntry := ⟨strL "10.04", strL "Streets", none, 0⟩

def tocWidth : TOCEntry := ⟨strL "10.0410", strL "Width", none, 0⟩

def tocGrade : TOCEntry := ⟨strL "10.0411", strL "Grade", none, 0⟩

def tocGresham : List TOCEntry := [tocStreets, tocWidth, tocGrade]

def fileStreets : DocumentFile :=
  ⟨strL "dc-section-10.0400.json", strL "pdf_content/dc-section-10.0400.json",
    none, none⟩

def hStreets : DocumentHierarchy :=
  ⟨strL "10.04", strL "Streets", none, [tocWidth, tocGrade]⟩

def hStreetsFile : DocumentHierarchy :=
  ⟨strL "10.04", strL "Streets", some fileStreets, []⟩

instance : Nonempty DocumentHierarchy := ⟨⟨[], [], none, []⟩⟩

instance : Nonempty (Str × DocumentHierarchy) := ⟨([], ⟨[], [], none, []⟩)⟩

def hVal : DocumentHierarchy :=
  ⟨strL "10.04", strL "Streets", some fileStreets, [tocWidth, tocGrade]⟩

def dVal : Dict := [(strL "10.04", hVal)]

def fsVal : Str → Except Str Str :=
  fun _ => Except.ok (strL "title Streets section 10.0410 body")

def hNoFile : DocumentHierarchy := ⟨strL "10.05", strL "Parks", none, []⟩

def dNoFile : Dict := [(strL "10.05", hNoFile)]

def dErr : Dict := [(strL "10.04", hStreetsFile)]

def fsErr : Str → Except Str Str := fun _ => Except.error (strL "bad json")

def fsOkEmpty : Str → Except Str Str := fun _ => Except.ok []

def regPrior : Registry := ⟨[tocStreets], [fileStreets], []⟩

/-! ## Lemmas about the pattern matchers -/

theorem dot_not_digit : ('.' : Char).isDigit = false := by decide

theorem newline_not_digit : ('\n' : Char).isDigit = false := by decide

theorem takeWhile_append_stop (p : Char → Bool) (a : Str) (b : Char) (t : Str)
    (ha : ∀ c ∈ a, p c = true) (hb : p b = false) :
    (a ++ b :: t).takeWhile p = a ∧ (a ++ b :: t).dropWhile p = b :: t := by
  induction a with
  | nil => simp [List.takeWhile_cons, List.dropWhile_cons, hb]
  | cons c a ih =>
    have hc : p c = true := ha c (by simp)
    have ih' := ih (fun x hx => ha x (by simp [hx]))
    simp [List.takeWhile_cons, List.dropWhile_cons, hc, ih'.1, ih'.2]

theorem coreShape_parts {n : Nat} {s : Str} (h : coreShape n s = true) :
    ∃ rest, s.dropWhile Char.isDigit = '.' :: rest ∧ rest.length = n ∧
      (∀ c ∈ rest, c.isDigit = true) ∧ s.takeWhile Char.isDigit ≠ [] := by
  unfold coreShape at h
  simp only [Bool.and_eq_true, Bool.not_eq_true', List.isEmpty_eq_false,
    List.all_eq_true, beq_iff_eq] at h
  obtain ⟨⟨⟨h1, h2⟩, h3⟩, h4⟩ := h
  cases hd : s.dropWhile Char.isDigit with
  | nil => rw [hd] at h2; simp at h2
  | cons c rest =>
    rw [hd] at h2 h3 h4
    simp only [List.headD_cons] at h2
    subst h2
    refine ⟨rest, rfl, by simpa using h3, by simpa using h4, h1⟩

theorem coreShape_ne_of_lengths {m n : Nat} (hmn : m ≠ n) {s : Str}
    (hm : coreShape m s = true) : coreShape n s = false := by
  rw [Bool.eq_false_iff]
  intro hn
  obtain ⟨r1, hd1, hl1, -, -⟩ := coreShape_parts hm
  obtain ⟨r2, hd2, hl2, -, -⟩ := coreShape_parts hn
  rw [hd1] at hd2
  obtain ⟨-, rfl⟩ := List.cons.inj hd2
  exact hmn (hl1 ▸ hl2 ▸ rfl)

theorem getLast?_cons_of_ne_nil {α : Type} (c : α) {l : List α} (h : l ≠ []) :
    (c :: l).getLast? = l.getLast? := by
  cases l with
  | nil => exact absurd rfl h
  | cons b t => exact List.getLast?_cons_cons

theorem getLast?_append_cons {α : Type} (a : List α) (b : α) (t : List α) :
    (a ++ b :: t).getLast? = (b :: t).getLast? := by
  induction a with
  | nil => rfl
  | cons c a ih => rw [List.cons_append, getLast?_cons_of_ne_nil c (by simp), ih]

theorem coreShape_getLast {n : Nat} (hn : n ≠ 0) {s : Str} (h : coreShape n s = true) :
    ∃ b, s.getLast? = some b ∧ b.isDigit = true := by
  obtain ⟨rest, hd, hlen, hdig, -⟩ := coreShape_parts h
  have hsplit : s.takeWhile Char.isDigit ++ s.dropWhile Char.isDigit = s :=
    List.takeWhile_append_dropWhile Char.isDigit s
  have hrest : rest ≠ [] := by
    intro h0
    rw [h0] at hlen
    exact hn hlen.symm
  have h1 : s.getLast? = ('.' :: rest).getLast? := by
    rw [← hsplit, hd]
    exact getLast?_append_cons _ _ _
  have h2 : ('.' :: rest).getLast? = rest.getLast? := getLast?_cons_of_ne_nil _ hrest
  have h3 : rest.getLast? = some (rest.getLast hrest) := List.getLast?_eq_getLast rest hrest
  exact ⟨rest.getLast hrest, by rw [h1, h2, h3], hdig _ (List.getLast_mem hrest)⟩

/-- C5, conjunct helper: a digit cannot be the newline that the `$`
anchor skips. -/
theorem digit_last_not_newline {b : Char} (hb : b.isDigit = true) : (b == '\n') = false := by
  refine beq_eq_false_iff_ne.mpr (fun h => ?_)
  rw [h, newline_not_digit] at hb
  exact Bool.false_ne_true hb

theorem coreShape_two_imp_not_subsection {s : Str} (h2 : coreShape 2 s = true) :
    is_subsection s = false := by
  have h4 : coreShape 4 s = false := coreShape_ne_of_lengths (by decide) h2
  obtain ⟨b, hb, hbd⟩ := coreShape_getLast (by decide) h2
  unfold is_subsection reMatchDollar
  rw [h4, hb]
  simp [digit_last_not_newline hbd]

theorem coreShape_four_imp_not_document {s : Str} (h4 : coreShape 4 s = true) :
    is_document_level s = false := by
  have h2 : coreShape 2 s = false := coreShape_ne_of_lengths (by decide) h4
  obtain ⟨b, hb, hbd⟩ := coreShape_getLast (by decide) h4
  unfold is_document_level reMatchDollar
  rw [h2, hb]
  simp [digit_last_not_newline hbd]

/-- **C5.**  Every string of shape `\d+\.\d{2}` (one or more digits, a
dot, exactly two digits) is classified as document-level and not as a
subsection; every string of shape `\d+\.\d{4}` the reverse; and no
string at all is classified as both: the two `config.PATTERNS` used by
`utils.is_document_level` and `utils.is_subsection` are mutually
exclusive. -/
theorem classification_patterns_spec (s : Str) :
    (coreShape 2 s = true → is_document_level s = true ∧ is_subsection s = false) ∧
    (coreShape 4 s = true → is_subsection s = true ∧ is_document_level s = false) ∧
    ¬(is_document_level s = true ∧ is_subsection s = true) := by
  refine ⟨fun h2 => ⟨?_, coreShape_two_imp_not_subsection h2⟩,
          fun h4 => ⟨?_, coreShape_four_imp_not_document h4⟩, ?_⟩
  · unfold is_document_level reMatchDollar
    rw [h2]
    rfl
  · unfold is_subsection reMatchDollar
    rw [h4]
    rfl
  · rintro ⟨hd, hs⟩
    unfold is_document_level reMatchDollar at hd
    rw [Bool.or_eq_true] at hd
    cases hd with
    | inl hd2 =>
      rw [coreShape_two_imp_not_subsection hd2] at hs
      exact Bool.false_ne_true hs
    | inr hd' =>
      cases hl : s.getLast? with
      | none => rw [hl] at hd'; simp at hd'
      | some c =>
        rw [hl] at hd'
        simp only [Bool.and_eq_true, beq_iff_eq] at hd'
        obtain ⟨hceq, hdl2⟩ := hd'
        unfold is_subsection reMatchDollar at hs
        rw [Bool.or_eq_true] at hs
        cases hs with
        | inl hs4 =>
          obtain ⟨b, hb, hbd⟩ := coreShape_getLast (by decide) hs4
          rw [hl] at hb
          obtain rfl := Option.some.inj hb
          rw [hceq, newline_not_digit] at hbd
          exact Bool.false_ne_true hbd
        | inr hs' =>
          rw [hl] at hs'
          simp only [Bool.and_eq_true, beq_iff_eq] at hs'
          obtain ⟨-, hdl4⟩ := hs'
          rw [coreShape_ne_of_lengths (by decide) hdl2] at hdl4
          exact Bool.false_ne_true hdl4

theorem classification_patterns_spec_witness :
    (is_document_level (strL "10.04") = true ∧ is_subsection (strL "10.04") = false) ∧
    (is_subsection (strL "10.0410") = true ∧ is_document_level (strL "10.0410") = false) :=
  ⟨(classification_patterns_spec (strL "10.04")).1 (by decide),
   (classification_patterns_spec (strL "10.0410")).2.1 (by decide)⟩

/-! ## `get_parent_document` (C6) -/

theorem pySplit_no_sep {sep : Char} {a : Str} (h : sep ∉ a) : pySplit sep a = [a] := by
  induction a with
  | nil => rfl
  | cons c t ih =>
    have hc : (c == sep) = false :=
      beq_eq_false_iff_ne.mpr (fun hh => h (hh ▸ List.mem_cons_self c t))
    have ht := ih (fun hm => h (List.mem_cons_of_mem c hm))
    simp [pySplit, hc, ht]

theorem pySplit_sep_cons {sep : Char} {a : Str} (r : Str) (h : sep ∉ a) :
    pySplit sep (a ++ sep :: r) = a :: pySplit sep r := by
  induction a with
  | nil => simp [pySplit]
  | cons c t ih =>
    have hc : (c == sep) = false :=
      beq_eq_false_iff_ne.mpr (fun hh => h (hh ▸ List.mem_cons_self c t))
    have ht := ih (fun hm => h (List.mem_cons_of_mem c hm))
    simp [pySplit, hc, ht]

/-- Evaluation of `get_parent_document` on a string with exactly one
dot: split yields the two surrounding segments, and the parent is
produced exactly when the classification succeeds and the fraction part
has length four. -/
theorem get_parent_eval (tw rest' : Str) (h1 : '.' ∉ tw) (h2 : '.' ∉ rest') :
    get_parent_document (tw ++ '.' :: rest') =
      if is_subsection (tw ++ '.' :: rest') && rest'.length == 4 then
        some (tw ++ '.' :: rest'.take 2)
      else none := by
  cases hsub : is_subsection (tw ++ '.' :: rest') with
  | false => simp [get_parent_document, hsub]
  | true =>
    simp only [get_parent_document, hsub, if_true, Bool.true_and]
    rw [pySplit_sep_cons rest' h1, pySplit_no_sep h2]
    cases hlen : rest'.length == 4 with
    | false => simp [hlen]
    | true => simp [hlen]

/-- **C6.**  `get_parent_document` returns the integer part, a dot, and
the first two fractional digits exactly when the input has the
subsection shape `\d+\.\d{4}` (one or more digits, a dot, exactly four
digits), and `None` on every other string — including strings that the
Python regex accepts only thanks to a trailing newline, where the
four-digit length test on the split fails. -/
theorem get_parent_document_spec (s : Str) :
    get_parent_document s =
      if coreShape 4 s = true then some (spec_parent_document s) else none := by
  cases h4 : coreShape 4 s with
  | true =>
    simp only [if_pos]
    obtain ⟨rest, hd, hlen, hdig, htw⟩ := coreShape_parts h4
    have htwd : ∀ c ∈ s.takeWhile Char.isDigit, c.isDigit = true :=
      fun c hc => List.mem_takeWhile_imp hc
    have hs : s = s.takeWhile Char.isDigit ++ '.' :: rest := by
      conv_lhs => rw [← List.takeWhile_append_dropWhile Char.isDigit s]
      rw [hd]
    have h1 : '.' ∉ s.takeWhile Char.isDigit :=
      fun hm => absurd (htwd _ hm) (by decide)
    have h2 : '.' ∉ rest := fun hm => absurd (hdig _ hm) (by decide)
    have hsub : is_subsection (s.takeWhile Char.isDigit ++ '.' :: rest) = true := by
      rw [← hs]
      unfold is_subsection reMatchDollar
      rw [h4]
      rfl
    have hgp : get_parent_document s
        = some (s.takeWhile Char.isDigit ++ '.' :: rest.take 2) := by
      conv_lhs => rw [hs]
      rw [get_parent_eval _ _ h1 h2, hsub, hlen]
      rfl
    rw [hgp]
    simp [spec_parent_document, hd]
  | false =>
    simp only [Bool.false_eq_true, if_false]
    cases hsub : is_subsection s with
    | false => simp [get_parent_document, hsub]
    | true =>
      unfold is_subsection reMatchDollar at hsub
      rw [Bool.or_eq_true] at hsub
      cases hsub with
      | inl h => rw [h4] at h; exact absurd h Bool.false_ne_true
      | inr h =>
        cases hl : s.getLast? with
        | none => rw [hl] at h; simp at h
        | some c =>
          rw [hl] at h
          simp only [Bool.and_eq_true, beq_iff_eq] at h
          obtain ⟨rfl, hcore⟩ := h
          obtain ⟨rest, hd, hlen, hdig, htw⟩ := coreShape_parts hcore
          have hs' : s = s.dropLast ++ ['\n'] :=
            (List.dropLast_append_getLast? '\n' hl).symm
          have hdl : s.dropLast = s.dropLast.takeWhile Char.isDigit ++ '.' :: rest := by
            conv_lhs => rw [← List.takeWhile_append_dropWhile Char.isDigit s.dropLast]
            rw [hd]
          have hs2 : s = s.dropLast.takeWhile Char.isDigit ++ '.' :: (rest ++ ['\n']) := by
            conv_lhs => rw [hs', hdl]
            simp
          have h1' : '.' ∉ s.dropLast.takeWhile Char.isDigit :=
            fun hm => absurd (List.mem_takeWhile_imp hm) (by decide)
          have h2' : '.' ∉ rest ++ ['\n'] := by
            intro hm
            rcases List.mem_append.mp hm with hm1 | hm2
            · exact absurd (hdig _ hm1) (by decide)
            · simp at hm2
          conv_lhs => rw [hs2]
          rw [get_parent_eval _ _ h1' h2']
          have hfive : ((rest ++ ['\n']).length == 4) = false := by
            simp [hlen]
          rw [hfive]
          simp

/-! ## Dictionary lemmas -/

theorem containsKey_eq_isSome_dictFind (k : Str) (d : Dict) :
    containsKey k d = (dictFind k d).isSome := by
  induction d with
  | nil => rfl
  | cons p rest ih =>
    unfold containsKey dictFind
    cases hp : p.1 == k with
    | true => simp [hp]
    | false => simpa [hp] using ih

theorem dictFind_cons_eq (p : Str × DocumentHierarchy) (k : Str) (rest : Dict)
    (h : (p.1 == k) = true) : dictFind k (p :: rest) = some p.2 := by
  show (if (p.1 == k) = true then some p.2 else dictFind k rest) = some p.2
  exact if_pos h

theorem dictFind_cons_ne (p : Str × DocumentHierarchy) (k : Str) (rest : Dict)
    (h : (p.1 == k) = false) : dictFind k (p :: rest) = dictFind k rest := by
  show (if (p.1 == k) = true then some p.2 else dictFind k rest) = dictFind k rest
  exact if_neg (fun hc => Bool.false_ne_true (h ▸ hc))

theorem dictUpdate_cons_eq (k : Str) (f : DocumentHierarchy → DocumentHierarchy)
    (p : Str × DocumentHierarchy) (rest : Dict) (h : (p.1 == k) = true) :
    dictUpdate k f (p :: rest) = (p.1, f p.2) :: dictUpdate k f rest := by
  unfold dictUpdate
  rw [List.map_cons, if_pos h]

theorem dictUpdate_cons_ne (k : Str) (f : DocumentHierarchy → DocumentHierarchy)
    (p : Str × DocumentHierarchy) (rest : Dict) (h : (p.1 == k) = false) :
    dictUpdate k f (p :: rest) = p :: dictUpdate k f rest := by
  unfold dictUpdate
  rw [List.map_cons, if_neg (fun hc => Bool.false_ne_true (h ▸ hc))]

theorem dictFind_dictUpdate_ne {k k' : Str} (hkk : k ≠ k')
    (f : DocumentHierarchy → DocumentHierarchy) (d : Dict) :
    dictFind k (dictUpdate k' f d) = dictFind k d := by
  induction d with
  | nil => rfl
  | cons p rest ih =>
    cases hp : p.1 == k' with
    | true =>
      have hpk : (p.1 == k) = false :=
        beq_eq_false_iff_ne.mpr (fun hh => hkk (hh ▸ eq_of_beq hp))
      rw [dictUpdate_cons_eq _ _ _ _ hp,
        dictFind_cons_ne (p.1, f p.2) k _ hpk, ih, dictFind_cons_ne _ _ _ hpk]
    | false =>
      rw [dictUpdate_cons_ne _ _ _ _ hp]
      cases hpk : p.1 == k with
      | true => rw [dictFind_cons_eq _ _ _ hpk, dictFind_cons_eq _ _ _ hpk]
      | false => rw [dictFind_cons_ne _ _ _ hpk, dictFind_cons_ne _ _ _ hpk, ih]

theorem dictFind_dictUpdate_self (k : Str)
    (f : DocumentHierarchy → DocumentHierarchy) (d : Dict) :
    dictFind k (dictUpdate k f d) = (dictFind k d).map f := by
  induction d with
  | nil => rfl
  | cons p rest ih =>
    cases hp : p.1 == k with
    | true =>
      rw [dictUpdate_cons_eq _ _ _ _ hp, dictFind_cons_eq (p.1, f p.2) k _ hp,
        dictFind_cons_eq _ _ _ hp]
      rfl
    | false =>
      rw [dictUpdate_cons_ne _ _ _ _ hp, dictFind_cons_ne _ _ _ hp,
        dictFind_cons_ne _ _ _ hp, ih]

theorem keysOf_dictUpdate (k : Str) (f : DocumentHierarchy → DocumentHierarchy)
    (d : Dict) : keysOf (dictUpdate k f d) = keysOf d := by
  unfold keysOf dictUpdate
  rw [List.map_map]
  refine List.map_congr_left (fun p _ => ?_)
  simp only [Function.comp]
  split <;> rfl

theorem mem_dictUpdate {p : Str × DocumentHierarchy} {k : Str}
    {f : DocumentHierarchy → DocumentHierarchy} {d : Dict}
    (h : p ∈ dictUpdate k f d) :
    ∃ q ∈ d, p = q ∨ p = (q.1, f q.2) := by
  unfold dictUpdate at h
  obtain ⟨q, hq, hpq⟩ := List.mem_map.mp h
  refine ⟨q, hq, ?_⟩
  cases hqk : q.1 == k with
  | true => right; rw [← hpq]; simp [hqk]
  | false => left; rw [← hpq]; simp [hqk]

theorem containsKey_eq_mem_keys (k : Str) (d : Dict) :
    containsKey k d = true ↔ k ∈ keysOf d := by
  unfold containsKey keysOf
  rw [List.any_eq_true]
  constructor
  · rintro ⟨p, hp, hbeq⟩
    exact List.mem_map.mpr ⟨p, hp, eq_of_beq hbeq⟩
  · intro hm
    obtain ⟨p, hp, rfl⟩ := List.mem_map.mp hm
    exact ⟨p, hp, beq_self_eq_true p.1⟩

theorem dictFind_eq_none_of_containsKey_false {k : Str} {d : Dict}
    (h : containsKey k d = false) : dictFind k d = none := by
  have hh := containsKey_eq_isSome_dictFind k d
  rw [h] at hh
  cases hf : dictFind k d with
  | none => rfl
  | some v => rw [hf] at hh; simp at hh

theorem containsKey_true_of_dictFind_some {k : Str} {d : Dict} {v : DocumentHierarchy}
    (h : dictFind k d = some v) : containsKey k d = true := by
  rw [containsKey_eq_isSome_dictFind, h]
  rfl

theorem eq_nil_of_getLast?_eq_none {α : Type} {l : List α} (h : l.getLast? = none) :
    l = [] := by
  cases l with
  | nil => rfl
  | cons a t =>
    rw [List.getLast?_eq_getLast (a :: t) (by simp)] at h
    cases h

/-! Non-emptiness of produced numbers (they always contain a dot), which
discharges the Python truthiness guards in `build_hierarchy`. -/

theorem get_parent_isEmpty_false {s p : Str} (h : get_parent_document s = some p) :
    p.isEmpty = false := by
  cases hsub : is_subsection s with
  | false => simp [get_parent_document, hsub] at h
  | true =>
    simp only [get_parent_document, hsub, if_true] at h
    split at h
    · obtain rfl := Option.some.inj h
      simp
    · cases h

theorem reSearchGo_some_mem_dot (fuel : Nat) :
    ∀ (s m : Str), reSearchGo fuel s = some m → '.' ∈ m := by
  induction fuel with
  | zero => intro s m h; cases h
  | succ n ih =>
    intro s m h
    cases s with
    | nil => cases h
    | cons c rest =>
      rw [reSearchGo] at h
      split at h
      · split at h
        · split at h
          · obtain rfl := Option.some.inj h
            exact List.mem_append.mpr (Or.inr (List.mem_cons_self _ _))
          · exact ih _ _ h
        · exact ih _ _ h
      · exact ih _ _ h

theorem extract_number_isEmpty_false {fn m : Str}
    (h : extract_number_from_filename fn = some m) : m.isEmpty = false := by
  unfold extract_number_from_filename reSearchNumber at h
  obtain ⟨m0, hm0, rfl⟩ := Option.map_eq_some'.mp h
  have hne : m0 ≠ [] := List.ne_nil_of_mem (reSearchGo_some_mem_dot _ _ _ hm0)
  unfold normalize_number
  split
  · dsimp only
    split
    · simp
    · simp [hne]
  · simp [hne]

theorem document_number_isEmpty_false {f : DocumentFile} {n : Str}
    (h : f.document_number = some n) : n.isEmpty = false := by
  cases he : f.extracted_number with
  | none =>
    simp only [DocumentFile.document_number, he] at h
    exact extract_number_isEmpty_false h
  | some e =>
    cases hne : e.isEmpty with
    | false =>
      simp [DocumentFile.document_number, he, hne] at h
      rw [← h]
      exact hne
    | true =>
      simp [DocumentFile.document_number, he, hne] at h
      exact extract_number_isEmpty_false h

/-! Evaluation of the `build_hierarchy` loop bodies. -/

theorem addSubsectionStep_none (d : Dict) (s : TOCEntry)
    (h : get_parent_document s.number = none) : addSubsectionStep d s = d := by
  unfold addSubsectionStep
  rw [h]

theorem addSubsectionStep_some_in (d : Dict) (s : TOCEntry) (p : Str)
    (h : get_parent_document s.number = some p) (hc : containsKey p d = true) :
    addSubsectionStep d s =
      dictUpdate p (fun h0 => { h0 with subsections := h0.subsections ++ [s] }) d := by
  unfold addSubsectionStep
  simp only [h]
  have hcond : (!p.isEmpty && containsKey p d) = true := by
    rw [get_parent_isEmpty_false h, hc]
    rfl
  rw [if_pos hcond]

theorem addSubsectionStep_some_out (d : Dict) (s : TOCEntry) (p : Str)
    (h : get_parent_document s.number = some p) (hc : containsKey p d = false) :
    addSubsectionStep d s = d := by
  unfold addSubsectionStep
  simp only [h]
  have hcond : (!p.isEmpty && containsKey p d) = false := by
    rw [hc]
    exact Bool.and_false _
  rw [if_neg (fun hcc => Bool.false_ne_true (hcond ▸ hcc))]

theorem attachFileStep_none (d : Dict) (f : DocumentFile)
    (h : f.document_number = none) : attachFileStep d f = d := by
  unfold attachFileStep
  rw [h]

theorem attachFileStep_some_in (d : Dict) (f : DocumentFile) (n : Str)
    (h : f.document_number = some n) (hc : containsKey n d = true) :
    attachFileStep d f =
      dictUpdate n (fun h0 => { h0 with file_info := some f }) d := by
  unfold attachFileStep
  simp only [h]
  have hcond : (!n.isEmpty && containsKey n d) = true := by
    rw [document_number_isEmpty_false h, hc]
    rfl
  rw [if_pos hcond]

theorem attachFileStep_some_out (d : Dict) (f : DocumentFile) (n : Str)
    (h : f.document_number = some n) (hc : containsKey n d = false) :
    attachFileStep d f = d := by
  unfold attachFileStep
  simp only [h]
  have hcond : (!n.isEmpty && containsKey n d) = false := by
    rw [hc]
    exact Bool.and_false _
  rw [if_neg (fun hcc => Bool.false_ne_true (hcond ▸ hcc))]

theorem keysOf_addSubsectionStep (d : Dict) (s : TOCEntry) :
    keysOf (addSubsectionStep d s) = keysOf d := by
  cases hg : get_parent_document s.number with
  | none => rw [addSubsectionStep_none d s hg]
  | some p =>
    cases hck : containsKey p d with
    | true => rw [addSubsectionStep_some_in d s p hg hck, keysOf_dictUpdate]
    | false => rw [addSubsectionStep_some_out d s p hg hck]

theorem keysOf_attachFileStep (d : Dict) (f : DocumentFile) :
    keysOf (attachFileStep d f) = keysOf d := by
  cases hg : f.document_number with
  | none => rw [attachFileStep_none d f hg]
  | some n =>
    cases hck : containsKey n d with
    | true => rw [attachFileStep_some_in d f n hg hck, keysOf_dictUpdate]
    | false => rw [attachFileStep_some_out d f n hg hck]

theorem keysOf_foldl_addSubsection (subs : List TOCEntry) (d : Dict) :
    keysOf (subs.foldl addSubsectionStep d) = keysOf d := by
  induction subs generalizing d with
  | nil => rfl
  | cons s subs ih => rw [List.foldl_cons, ih, keysOf_addSubsectionStep]

theorem keysOf_foldl_attachFile (files : List DocumentFile) (d : Dict) :
    keysOf (files.foldl attachFileStep d) = keysOf d := by
  induction files generalizing d with
  | nil => rfl
  | cons f files ih => rw [List.foldl_cons, ih, keysOf_attachFileStep]

/-- Characterisation of the subsection loop: the entry at key `k`
receives exactly the subsection entries whose computed parent is `k`,
appended in encounter order. -/
theorem dictFind_foldl_addSubsection (subs : List TOCEntry) (d : Dict) (k : Str) :
    dictFind k (subs.foldl addSubsectionStep d) =
      (dictFind k d).map (fun h0 =>
        { h0 with subsections := h0.subsections ++
            subs.filter (fun s => get_parent_document s.number == some k) }) := by
  induction subs generalizing d with
  | nil =>
    cases hf : dictFind k d with
    | none => simp [hf]
    | some h0 => simp [hf]
  | cons s subs ih =>
    rw [List.foldl_cons, ih (addSubsectionStep d s)]
    cases hg : get_parent_document s.number with
    | none =>
      rw [addSubsectionStep_none d s hg]
      have hpred : (get_parent_document s.number == some k) = false := by
        rw [hg]
        rfl
      simp [List.filter_cons, hpred]
    | some p =>
      by_cases hpk : p = k
      · subst hpk
        have hpred : (get_parent_document s.number == some p) = true := by
          rw [hg]
          exact beq_self_eq_true _
        cases hck : containsKey p d with
        | true =>
          rw [addSubsectionStep_some_in d s p hg hck, dictFind_dictUpdate_self p _ d]
          cases hf : dictFind p d with
          | none => simp
          | some h0 => simp [List.filter_cons, hpred, List.append_assoc]
        | false =>
          rw [addSubsectionStep_some_out d s p hg hck,
            dictFind_eq_none_of_containsKey_false hck]
          rfl
      · have hpred : (get_parent_document s.number == some k) = false := by
          rw [hg]
          exact beq_eq_false_iff_ne.mpr (fun hh => hpk (Option.some.inj hh))
        have hstep : dictFind k (addSubsectionStep d s) = dictFind k d := by
          cases hck : containsKey p d with
          | true =>
            rw [addSubsectionStep_some_in d s p hg hck]
            exact dictFind_dictUpdate_ne (fun hh => hpk hh.symm) _ d
          | false => rw [addSubsectionStep_some_out d s p hg hck]
        rw [hstep]
        simp [List.filter_cons, hpred]

/-- Characterisation of the file loop: the entry at key `k` ends with
the last scanned file whose extracted number is `k` (or keeps its
previous `file_info` when no file matches). -/
theorem dictFind_foldl_attachFile (files : List DocumentFile) (d : Dict) (k : Str) :
    dictFind k (files.foldl attachFileStep d) =
      (dictFind k d).map (fun h0 =>
        match (files.filter (fun f => f.document_number == some k)).getLast? with
        | some g => { h0 with file_info := some g }
        | none => h0) := by
  induction files generalizing d with
  | nil =>
    cases hf : dictFind k d with
    | none => simp [hf]
    | some h0 => simp [hf]
  | cons f files ih =>
    rw [List.foldl_cons, ih (attachFileStep d f)]
    cases hg : f.document_number with
    | none =>
      rw [attachFileStep_none d f hg]
      have hpred : (f.document_number == some k) = false := by
        rw [hg]
        rfl
      simp [List.filter_cons, hpred]
    | some n =>
      by_cases hnk : n = k
      · subst hnk
        have hpred : (f.document_number == some n) = true := by
          rw [hg]
          exact beq_self_eq_true _
        cases hck : containsKey n d with
        | true =>
          rw [attachFileStep_some_in d f n hg hck, dictFind_dictUpdate_self n _ d]
          cases hf : dictFind n d with
          | none => simp
          | some h0 =>
            cases hlast : (files.filter (fun g => g.document_number == some n)).getLast? with
            | some g =>
              have hne : files.filter (fun g => g.document_number == some n) ≠ [] := by
                intro hnil
                rw [hnil] at hlast
                cases hlast
              have hcons : (f :: files.filter
                  (fun g => g.document_number == some n)).getLast? = some g := by
                rw [getLast?_cons_of_ne_nil f hne]
                exact hlast
              simp [List.filter_cons, hpred, hlast, hcons]
            | none =>
              have hnil : files.filter (fun g => g.document_number == some n) = [] :=
                eq_nil_of_getLast?_eq_none hlast
              simp [List.filter_cons, hpred, hlast, hnil]
        | false =>
          rw [attachFileStep_some_out d f n hg hck,
            dictFind_eq_none_of_containsKey_false hck]
          rfl
      · have hpred : (f.document_number == some k) = false := by
          rw [hg]
          exact beq_eq_false_iff_ne.mpr (fun hh => hnk (Option.some.inj hh))
        have hstep : dictFind k (attachFileStep d f) = dictFind k d := by
          cases hck : containsKey n d with
          | true =>
            rw [attachFileStep_some_in d f n hg hck]
            exact dictFind_dictUpdate_ne (fun hh => hnk hh.symm) _ d
          | false => rw [attachFileStep_some_out d f n hg hck]
        rw [hstep]
        simp [List.filter_cons, hpred]

/-! ## `buildDocMap` invariants -/

theorem mem_dictInsert {p : Str × DocumentHierarchy} {k : Str}
    {v : DocumentHierarchy} {d : Dict} (h : p ∈ dictInsert k v d) :
    p ∈ d ∨ p = (k, v) := by
  unfold dictInsert at h
  split at h
  · obtain ⟨q, hq, hpq⟩ := List.mem_map.mp h
    cases hqk : q.1 == k with
    | true =>
      right
      rw [← hpq, if_pos hqk, eq_of_beq hqk]
    | false =>
      left
      rw [← hpq, if_neg (fun hcc => Bool.false_ne_true (hqk ▸ hcc))]
      exact hq
  · rcases List.mem_append.mp h with h1 | h1
    · left; exact h1
    · right; simpa using h1

theorem keysOf_dictInsert_in {k : Str} {d : Dict} (v : DocumentHierarchy)
    (h : containsKey k d = true) : keysOf (dictInsert k v d) = keysOf d := by
  unfold dictInsert
  rw [if_pos h]
  unfold keysOf
  rw [List.map_map]
  refine List.map_congr_left (fun p _ => ?_)
  simp only [Function.comp]
  split <;> rfl

theorem keysOf_dictInsert_out {k : Str} {d : Dict} (v : DocumentHierarchy)
    (h : containsKey k d = false) : keysOf (dictInsert k v d) = keysOf d ++ [k] := by
  unfold dictInsert
  rw [if_neg (fun hcc => Bool.false_ne_true (h ▸ hcc))]
  unfold keysOf
  rw [List.map_append]
  rfl

theorem mem_keysOf_dictInsert {k' k : Str} {v : DocumentHierarchy} {d : Dict} :
    k' ∈ keysOf (dictInsert k v d) ↔ k' ∈ keysOf d ∨ k' = k := by
  cases h : containsKey k d with
  | true =>
    rw [keysOf_dictInsert_in v h]
    refine ⟨Or.inl, fun hh => ?_⟩
    rcases hh with hh | rfl
    · exact hh
    · exact (containsKey_eq_mem_keys k' d).mp h
  | false =>
    rw [keysOf_dictInsert_out v h]
    simp

theorem nodup_keysOf_dictInsert {k : Str} {d : Dict} (v : DocumentHierarchy)
    (hn : (keysOf d).Nodup) : (keysOf (dictInsert k v d)).Nodup := by
  cases h : containsKey k d with
  | true => rw [keysOf_dictInsert_in v h]; exact hn
  | false =>
    rw [keysOf_dictInsert_out v h]
    have hk : k ∉ keysOf d := fun hm =>
      Bool.false_ne_true (h ▸ (containsKey_eq_mem_keys k d).mpr hm)
    simp [List.nodup_append, hn, hk]

theorem nodup_keysOf_buildDocMap (docs : List TOCEntry) :
    (keysOf (buildDocMap docs)).Nodup := by
  suffices hgen : ∀ d : Dict, (keysOf d).Nodup →
      (keysOf (docs.foldl
        (fun d e => dictInsert e.number ⟨e.number, e.title, none, []⟩ d) d)).Nodup by
    exact hgen [] (by simp [keysOf])
  induction docs with
  | nil => intro d h; exact h
  | cons e docs ih =>
    intro d h
    rw [List.foldl_cons]
    exact ih _ (nodup_keysOf_dictInsert _ h)

theorem mem_keysOf_buildDocMap (docs : List TOCEntry) (k : Str) :
    k ∈ keysOf (buildDocMap docs) ↔ ∃ e ∈ docs, e.number = k := by
  suffices hgen : ∀ d : Dict, k ∈ keysOf (docs.foldl
      (fun d e => dictInsert e.number ⟨e.number, e.title, none, []⟩ d) d) ↔
      k ∈ keysOf d ∨ ∃ e ∈ docs, e.number = k by
    unfold buildDocMap
    rw [hgen []]
    constructor
    · rintro (h1 | h1)
      · exact absurd h1 (List.not_mem_nil k)
      · exact h1
    · exact Or.inr
  induction docs with
  | nil => intro d; simp
  | cons e docs ih =>
    intro d
    rw [List.foldl_cons, ih, mem_keysOf_dictInsert]
    constructor
    · rintro ((hh | rfl) | ⟨e', he', rfl⟩)
      · exact Or.inl hh
      · exact Or.inr ⟨e, List.mem_cons_self e docs, rfl⟩
      · exact Or.inr ⟨e', List.mem_cons_of_mem e he', rfl⟩
    · rintro (hh | ⟨e', he', rfl⟩)
      · exact Or.inl (Or.inl hh)
      · rcases List.mem_cons.mp he' with rfl | he''
        · exact Or.inl (Or.inr rfl)
        · exact Or.inr ⟨e', he'', rfl⟩

theorem buildDocMap_entries (docs : List TOCEntry) :
    ∀ p ∈ buildDocMap docs,
      p.2.document_number = p.1 ∧ p.2.file_info = none ∧ p.2.subsections = [] := by
  suffices hgen : ∀ d : Dict,
      (∀ p ∈ d, p.2.document_number = p.1 ∧ p.2.file_info = none ∧ p.2.subsections = []) →
      ∀ p ∈ docs.foldl
        (fun d e => dictInsert e.number ⟨e.number, e.title, none, []⟩ d) d,
        p.2.document_number = p.1 ∧ p.2.file_info = none ∧ p.2.subsections = [] by
    exact hgen [] (by simp)
  induction docs with
  | nil => intro d h; exact h
  | cons e docs ih =>
    intro d h
    rw [List.foldl_cons]
    refine ih _ (fun p hp => ?_)
    rcases mem_dictInsert hp with hp1 | rfl
    · exact h p hp1
    · exact ⟨rfl, rfl, rfl⟩

theorem dictFind_some_mem {k : Str} {d : Dict} {v : DocumentHierarchy}
    (h : dictFind k d = some v) : (k, v) ∈ d := by
  induction d with
  | nil => cases h
  | cons p rest ih =>
    cases hp : p.1 == k with
    | true =>
      rw [dictFind_cons_eq p k rest hp] at h
      obtain rfl := Option.some.inj h
      have : p = (k, p.2) := by
        rw [← eq_of_beq hp]
      exact this ▸ List.mem_cons_self p rest
    | false =>
      rw [dictFind_cons_ne p k rest hp] at h
      exact List.mem_cons_of_mem p (ih h)

theorem dictFind_of_mem_nodup {d : Dict} {p : Str × DocumentHierarchy}
    (hn : (keysOf d).Nodup) (hp : p ∈ d) : dictFind p.1 d = some p.2 := by
  induction d with
  | nil => cases hp
  | cons q rest ih =>
    rcases List.mem_cons.mp hp with rfl | hp'
    · exact dictFind_cons_eq p p.1 rest (beq_self_eq_true p.1)
    · have hq : (q.1 == p.1) = false := by
        refine beq_eq_false_iff_ne.mpr (fun hh => ?_)
        have h1 : q.1 ∈ keysOf rest := by
          rw [hh]
          exact List.mem_map.mpr ⟨p, hp', rfl⟩
        have h2 : q.1 ∉ keysOf rest := (List.nodup_cons.mp hn).1
        exact h2 h1
      rw [dictFind_cons_ne q p.1 rest hq]
      exact ih (List.nodup_cons.mp hn).2 hp'

/-! ## `build_hierarchy` characterisation -/

theorem keysOf_build_hierarchy (toc : List TOCEntry) (files : List DocumentFile) :
    keysOf (build_hierarchy toc files) =
      keysOf (buildDocMap (toc.filter (fun e => is_document_level e.number))) := by
  unfold build_hierarchy
  rw [keysOf_foldl_attachFile, keysOf_foldl_addSubsection]

theorem build_hierarchy_find (toc : List TOCEntry) (files : List DocumentFile) (k : Str) :
    dictFind k (build_hierarchy toc files) =
      (dictFind k (buildDocMap (toc.filter (fun e => is_document_level e.number)))).map
        (fun h0 =>
          match (files.filter (fun f => f.document_number == some k)).getLast? with
          | some g =>
              { h0 with
                subsections := h0.subsections ++
                  (toc.filter (fun e => is_subsection e.number)).filter
                    (fun s => get_parent_document s.number == some k),
                file_info := some g }
          | none =>
              { h0 with
                subsections := h0.subsections ++
                  (toc.filter (fun e => is_subsection e.number)).filter
                    (fun s => get_parent_document s.number == some k) }) := by
  unfold build_hierarchy
  rw [dictFind_foldl_attachFile, dictFind_foldl_addSubsection]
  cases hf : dictFind k (buildDocMap (toc.filter (fun e => is_document_level e.number))) with
  | none => rfl
  | some h0 => simp only [Option.map_some']

/-- Everything `build_hierarchy` guarantees about the entry found at a
key: its `document_number` is the key, its subsections are exactly the
subsection-level TOC entries whose parent is the key (in order), and
its file is the last matching scanned file. -/
theorem build_hierarchy_find_some {toc : List TOCEntry} {files : List DocumentFile}
    {k : Str} {h : DocumentHierarchy}
    (hfind : dictFind k (build_hierarchy toc files) = some h) :
    h.document_number = k ∧
    h.subsections =
      (toc.filter (fun e => is_subsection e.number)).filter
        (fun s => get_parent_document s.number == some k) ∧
    h.file_info = (files.filter (fun f => f.document_number == some k)).getLast? := by
  rw [build_hierarchy_find] at hfind
  obtain ⟨h0, hf0, rfl⟩ := Option.map_eq_some'.mp hfind
  have hmem : (k, h0) ∈ buildDocMap (toc.filter (fun e => is_document_level e.number)) :=
    dictFind_some_mem hf0
  obtain ⟨hdn, hfi, hsub⟩ :=
    buildDocMap_entries (toc.filter (fun e => is_document_level e.number)) (k, h0) hmem
  have hdn' : h0.document_number = k := hdn
  have hfi' : h0.file_info = none := hfi
  have hsub' : h0.subsections = [] := hsub
  cases hlast : (files.filter (fun f => f.document_number == some k)).getLast? with
  | some g => exact ⟨hdn', by rw [hsub']; rfl, rfl⟩
  | none => exact ⟨hdn', by rw [hsub']; rfl, hfi'⟩

/-- **C2.**  Subsection assignment: every hierarchy entry's subsection
list consists exactly of the subsection-level TOC entries whose derived
parent number is that entry's key, in TOC encounter order; a
subsection-level entry whose parent is absent from the map appears in
no entry's subsection list. -/
theorem build_hierarchy_subsection_assignment (toc : List TOCEntry)
    (files : List DocumentFile) (k : Str) (h : DocumentHierarchy)
    (hfind : dictFind k (build_hierarchy toc files) = some h) :
    h.subsections =
      (toc.filter (fun e => is_subsection e.number)).filter
        (fun s => get_parent_document s.number == some k) ∧
    ∀ e ∈ toc, is_subsection e.number = true →
      (∀ p, get_parent_document e.number = some p →
        containsKey p (build_hierarchy toc files) = false) →
      e ∉ h.subsections := by
  obtain ⟨-, hsubs, -⟩ := build_hierarchy_find_some hfind
  refine ⟨hsubs, fun e hetoc hesub hdrop hmem => ?_⟩
  rw [hsubs] at hmem
  have h2 : (get_parent_document e.number == some k) = true :=
    (List.mem_filter.mp hmem).2
  have h3 : get_parent_document e.number = some k := eq_of_beq h2
  have h4 := hdrop k h3
  rw [containsKey_eq_isSome_dictFind, hfind] at h4
  simp at h4

theorem build_hierarchy_subsection_assignment_witness :
    dictFind (strL "10.04") (build_hierarchy tocGresham []) = some hStreets ∧
    hStreets.subsections =
      (tocGresham.filter (fun e => is_subsection e.number)).filter
        (fun s => get_parent_document s.number == some (strL "10.04")) :=
  ⟨by decide,
   (build_hierarchy_subsection_assignment tocGresham [] (strL "10.04") hStreets
     (by decide)).1⟩

/-- **C3.**  File attachment: for scanned files (whose
`extracted_number` is unset), every hierarchy entry's `file_info` is
the last scanned file whose filename-extracted, normalised number
equals that entry's key — so a matching file sets `file_info`, the last
of several matching files wins, and a file without a matching key
attaches nowhere. -/
theorem build_hierarchy_file_attachment (toc : List TOCEntry)
    (files : List DocumentFile) (k : Str) (h : DocumentHierarchy)
    (hscan : ∀ f ∈ files, f.extracted_number = none)
    (hfind : dictFind k (build_hierarchy toc files) = some h) :
    h.file_info =
      (files.filter
        (fun f => extract_number_from_filename f.filename == some k)).getLast? := by
  obtain ⟨-, -, hfile⟩ := build_hierarchy_find_some hfind
  rw [hfile]
  congr 1
  refine List.filter_congr (fun f hf => ?_)
  have hdoc : f.document_number = extract_number_from_filename f.filename := by
    simp [DocumentFile.document_number, hscan f hf]
  rw [hdoc]

theorem build_hierarchy_file_attachment_witness :
    dictFind (strL "10.04") (build_hierarchy [tocStreets] [fileStreets])
      = some hStreetsFile ∧
    hStreetsFile.file_info =
      ([fileStreets].filter
        (fun f => extract_number_from_filename f.filename
          == some (strL "10.04"))).getLast? :=
  ⟨by decide,
   build_hierarchy_file_attachment [tocStreets] [fileStreets] (strL "10.04")
     hStreetsFile (by decide) (by decide)⟩

/-- **C7.**  Invariants of the built hierarchy: keys are unique and
document-level-shaped, each entry's `document_number` equals its key,
each entry has at most one file (`file_info` is a single `Option`
value), and each subsection list is a sublist of the TOC in encounter
order (it equals the parent-filtered subsection entries). -/
theorem hierarchy_invariants (toc : List TOCEntry) (files : List DocumentFile) :
    (keysOf (build_hierarchy toc files)).Nodup ∧
    (∀ k ∈ keysOf (build_hierarchy toc files), is_document_level k = true) ∧
    (∀ p ∈ build_hierarchy toc files, p.2.document_number = p.1) ∧
    (∀ k h, dictFind k (build_hierarchy toc files) = some h →
      List.Sublist h.subsections toc ∧
      h.subsections =
        (toc.filter (fun e => is_subsection e.number)).filter
          (fun s => get_parent_document s.number == some k)) := by
  have hkeys := keysOf_build_hierarchy toc files
  have hnd : (keysOf (build_hierarchy toc files)).Nodup := by
    rw [hkeys]
    exact nodup_keysOf_buildDocMap _
  refine ⟨hnd, ?_, ?_, ?_⟩
  · intro k hk
    rw [hkeys] at hk
    obtain ⟨e, he, rfl⟩ := (mem_keysOf_buildDocMap _ _).mp hk
    exact (List.mem_filter.mp he).2
  · intro p hp
    have hfind := dictFind_of_mem_nodup hnd hp
    exact (build_hierarchy_find_some hfind).1
  · intro k h hfind
    obtain ⟨-, hsubs, -⟩ := build_hierarchy_find_some hfind
    refine ⟨?_, hsubs⟩
    rw [hsubs]
    exact (List.filter_sublist _).trans (List.filter_sublist _)

theorem hierarchy_invariants_witness :
    (keysOf (build_hierarchy tocGresham [])).Nodup ∧
    is_document_level (strL "10.04") = true ∧
    hStreets.document_number = strL "10.04" ∧
    List.Sublist hStreets.subsections tocGresham :=
  ⟨(hierarchy_invariants tocGresham []).1,
   (hierarchy_invariants tocGresham []).2.1 (strL "10.04") (by decide),
   (hierarchy_invariants tocGresham []).2.2.1 (strL "10.04", hStreets) (by decide),
   ((hierarchy_invariants tocGresham []).2.2.2 (strL "10.04") hStreets (by decide)).1⟩

/-! ## Alignment metrics (C1) -/

theorem matchedFiles_eq_toFinset (d : Dict) :
    matchedFiles d =
      (d.filterMap (fun p => p.2.file_info.map (fun fi => fi.filename))).toFinset := by
  suffices hgen : ∀ init : Finset Str,
      d.foldl (fun s p =>
        match p.2.file_info with
        | some fi => insert fi.filename s
        | none => s) init =
      init ∪ (d.filterMap (fun p => p.2.file_info.map (fun fi => fi.filename))).toFinset by
    have hh := hgen ∅
    rw [Finset.empty_union] at hh
    exact hh
  induction d with
  | nil => intro init; simp
  | cons p rest ih =>
    intro init
    rw [List.foldl_cons]
    cases hfi : p.2.file_info with
    | none =>
      rw [ih]
      simp [hfi, List.filterMap_cons]
    | some fi =>
      rw [ih]
      simp [hfi, List.filterMap_cons, Finset.insert_union, Finset.union_insert]

/-- **C1.**  After `build_hierarchy`, `calculate_alignment_metrics`
returns: the number of entries of the hierarchy map, the number of
entries with a file, their difference, the total subsection count, the
scanned-file count minus the number of distinct attached filenames; and
the derived `alignment_percentage` is `with_files / total * 100`, or
`0` when the map is empty. -/
theorem alignment_metrics_spec (toc : List TOCEntry) (files : List DocumentFile) :
    (calculate_alignment_metrics files (build_hierarchy toc files)).total_documents
      = ((build_hierarchy toc files).length : Int) ∧
    (calculate_alignment_metrics files (build_hierarchy toc files)).documents_with_files
      = ((build_hierarchy toc files).countP (fun p => p.2.file_info.isSome) : Int) ∧
    (calculate_alignment_metrics files (build_hierarchy toc files)).documents_without_files
      = (calculate_alignment_metrics files (build_hierarchy toc files)).total_documents -
        (calculate_alignment_metrics files (build_hierarchy toc files)).documents_with_files ∧
    (calculate_alignment_metrics files (build_hierarchy toc files)).total_subsections
      = (((build_hierarchy toc files).map (fun p => p.2.subsections.length)).sum : Int) ∧
    (calculate_alignment_metrics files (build_hierarchy toc files)).orphaned_files
      = (files.length : Int) -
        (((build_hierarchy toc files).filterMap
          (fun p => p.2.file_info.map (fun fi => fi.filename))).dedup.length : Int) ∧
    (calculate_alignment_metrics files (build_hierarchy toc files)).alignment_percentage
      = (if (calculate_alignment_metrics files (build_hierarchy toc files)).total_documents = 0
         then 0
         else ((calculate_alignment_metrics files
                  (build_hierarchy toc files)).documents_with_files : ℚ) /
           ((calculate_alignment_metrics files
                  (build_hierarchy toc files)).total_documents : ℚ) * 100) := by
  refine ⟨rfl, rfl, rfl, rfl, ?_, rfl⟩
  show (files.length : Int) - ((matchedFiles (build_hierarchy toc files)).card : Int) = _
  rw [matchedFiles_eq_toFinset, List.card_toFinset]

/-! ## Content validation (C4, C9) -/

/-- **C4.**  For a document present in the hierarchy with an attached
readable file, `validate_subsection_content` returns the full record:
`found_list` is exactly the expected subsection numbers occurring as
substrings of the stringified content (in order), `missing_list` exactly
the others, and the percentage is `found/expected*100`, or `100` when
there are no expected subsections. -/
theorem validate_content_characterization (d : Dict) (fs : Str → Except Str Str)
    (num : Str) (h : DocumentHierarchy) (fi : DocumentFile) (text : Str)
    (h1 : dictFind num d = some h) (h2 : h.file_info = some fi)
    (h3 : fs fi.filepath = Except.ok text) :
    validate_subsection_content d fs num =
      ValidationOutcome.ok num fi.filepath
        h.subsections.length
        (h.subsections.filter (fun s => strContains text s.number)).length
        (h.subsections.filter (fun s => !strContains text s.number)).length
        ((h.subsections.filter (fun s => strContains text s.number)).map
          (fun s => s.number))
        ((h.subsections.filter (fun s => !strContains text s.number)).map
          (fun s => s.number))
        (if h.subsections = [] then 100
         else ((h.subsections.filter
             (fun s => strContains text s.number)).length : ℚ) /
           (h.subsections.length : ℚ) * 100) := by
  unfold validate_subsection_content
  rw [h1]
  simp only
  rw [h2]
  simp only
  rw [h3]
  simp only
  cases hs : h.subsections with
  | nil => simp [hs]
  | cons a l => simp [hs]

theorem validate_content_characterization_witness :
    validate_subsection_content dVal fsVal (strL "10.04") =
      ValidationOutcome.ok (strL "10.04") fileStreets.filepath 2 1 1
        [strL "10.0410"] [strL "10.0411"] 50 := by
  have hthm := validate_content_characterization dVal fsVal (strL "10.04") hVal
    fileStreets (strL "title Streets section 10.0410 body") (by decide) (by decide) rfl
  rw [hthm]
  have hfound : hVal.subsections.filter
      (fun s => strContains (strL "title Streets section 10.0410 body") s.number)
      = [tocWidth] := by decide
  have hmiss : hVal.subsections.filter
      (fun s => !strContains (strL "title Streets section 10.0410 body") s.number)
      = [tocGrade] := by decide
  have hsubs : hVal.subsections = [tocWidth, tocGrade] := rfl
  rw [hfound, hmiss, hsubs,
    if_neg (show ¬([tocWidth, tocGrade] = []) from by decide)]
  norm_num [tocWidth, tocGrade, strL]

/-- **C9.**  `validate_subsection_content` signals every failure as an
`{'error': ...}` result value instead of an exception: unknown document
number, document without a file, and a file whose opening or JSON
parsing fails. -/
theorem validate_content_never_raises (d : Dict) (fs : Str → Except Str Str)
    (num : Str) :
    (dictFind num d = none →
      validate_subsection_content d fs num =
        .error (strL "Document " ++ num ++ strL " not found in hierarchy")) ∧
    (∀ h, dictFind num d = some h → h.file_info = none →
      validate_subsection_content d fs num =
        .error (strL "No file found for document " ++ num)) ∧
    (∀ h fi e, dictFind num d = some h → h.file_info = some fi →
      fs fi.filepath = Except.error e →
      validate_subsection_content d fs num =
        .error (strL "Failed to validate content: " ++ e)) := by
  refine ⟨fun h1 => ?_, fun h h1 h2 => ?_, fun h fi e h1 h2 h3 => ?_⟩
  · unfold validate_subsection_content
    rw [h1]
  · unfold validate_subsection_content
    rw [h1]
    simp only
    rw [h2]
  · unfold validate_subsection_content
    rw [h1]
    simp only
    rw [h2]
    simp only
    rw [h3]

theorem validate_content_never_raises_witness :
    validate_subsection_content [] fsOkEmpty (strL "10.04") =
      .error (strL "Document " ++ strL "10.04" ++ strL " not found in hierarchy") ∧
    validate_subsection_content dNoFile fsOkEmpty (strL "10.05") =
      .error (strL "No file found for document " ++ strL "10.05") ∧
    validate_subsection_content dErr fsErr (strL "10.04") =
      .error (strL "Failed to validate content: " ++ strL "bad json") :=
  ⟨(validate_content_never_raises [] fsOkEmpty (strL "10.04")).1 rfl,
   (validate_content_never_raises dNoFile fsOkEmpty (strL "10.05")).2.1 hNoFile
     (by decide) rfl,
   (validate_content_never_raises dErr fsErr (strL "10.04")).2.2 hStreetsFile
     fileStreets (strL "bad json") (by decide) (by decide) rfl⟩

/-! ## TOC loading (C8, C10) -/

theorem load_toc_eval_unsupported (extractEntries : Str → List RawEntry)
    (reg : Registry) (toc_data : JSON)
    (h : tocShapeUnrecognized toc_data = true) :
    load_toc_from_file extractEntries reg toc_data =
      ({ reg with toc_entries := [] },
        some (strL "Unsupported TOC data structure")) := by
  cases toc_data with
  | null => rfl
  | bool b => rfl
  | num q => rfl
  | str s => rfl
  | arr items => exact Bool.noConfusion h
  | obj kvs =>
    have h' := h
    unfold tocShapeUnrecognized at h'
    rw [Bool.and_eq_true, Bool.not_eq_true', Bool.not_eq_true'] at h'
    obtain ⟨hk, hp⟩ := h'
    unfold load_toc_from_file
    dsimp only
    rw [if_neg (fun hc => Bool.false_ne_true (hk ▸ hc)),
      if_neg (fun hc => Bool.false_ne_true (hp ▸ hc))]

/-- **C8.**  A parsed TOC value of none of the three recognised shapes
(object with a `'toc'` key, bare list, object with text-bearing pages)
makes `load_toc_from_file` raise a data-format error, leaving no
partial list of parsed entries. -/
theorem load_toc_unrecognized_shape_raises (extractEntries : Str → List RawEntry)
    (reg : Registry) (toc_data : JSON)
    (hshape : tocShapeUnrecognized toc_data = true) :
    (load_toc_from_file extractEntries reg toc_data).2
      = some (strL "Unsupported TOC data structure") ∧
    (load_toc_from_file extractEntries reg toc_data).1.toc_entries = [] := by
  rw [load_toc_eval_unsupported extractEntries reg toc_data hshape]
  exact ⟨rfl, rfl⟩

theorem load_toc_unrecognized_shape_raises_witness :
    (load_toc_from_file (fun _ => []) regPrior (JSON.str (strL "oops"))).2
      = some (strL "Unsupported TOC data structure") ∧
    (load_toc_from_file (fun _ => []) regPrior (JSON.str (strL "oops"))).1.toc_entries
      = [] :=
  load_toc_unrecognized_shape_raises (fun _ => []) regPrior (JSON.str (strL "oops"))
    (by decide)

/-- **C10.**  `load_toc_from_file` clears `toc_entries` before looking
at the input's shape, so a call that raises on an unsupported shape
still erases the entries loaded by a previous successful call — the
failing call is not atomic with respect to prior registry state. -/
theorem load_toc_reset_not_atomic (extractEntries : Str → List RawEntry)
    (reg : Registry) (toc_data : JSON)
    (hshape : tocShapeUnrecognized toc_data = true) :
    (load_toc_from_file extractEntries reg toc_data).1
      = { reg with toc_entries := [] } := by
  rw [load_toc_eval_unsupported extractEntries reg toc_data hshape]

theorem load_toc_reset_not_atomic_witness :
    (load_toc_from_file (fun _ => []) regPrior
        (JSON.obj [(strL "title", JSON.str (strL "x"))])).1
      = { regPrior with toc_entries := [] } ∧
    regPrior.toc_entries ≠ [] :=
  ⟨load_toc_reset_not_atomic (fun _ => []) regPrior
      (JSON.obj [(strL "title", JSON.str (strL "x"))]) (by decide),
   by decide⟩
